import Mathlib

/-!
# Verification of JClinic (`jclinic/pairwise_rmsd.py`, `jclinic/sequence_embeddings.py`)

Shallow embedding of the two pipeline modules of the JClinic repository:

* `pairwise_rmsd.py`: `make_rmsds_matrix` builds an all-vs-all RMSD
  dissimilarity matrix over parsed structures, merging all chains into a
  single chain named "X", writing NaN for unalignable pairs.
* `sequence_embeddings.py`: per-chain amino-acid sequence extraction and
  ESM-2 embedding computation.

External third-party library calls (ProDy's `matchChains`,
`calcTransformation`, ESM's pretrained-model namespace and inference) are
modelled as explicit parameters or small faithful models; the repository's
own control flow and data plumbing are translated directly.

Machine floats are modelled by exact numbers: coordinates are rationals,
RMSD values live in `ℝ` (`Real.sqrt` of a rational mean squared
deviation).  Python exceptions are modelled by `Option`/`Except`.
-/

/-- A single atom of a parsed structure (ProDy `AtomGroup` element):
3D coordinate, atom name (e.g. "CA"), residue name, chain identifier
and segment name. -/
structure Atom where
  coord : ℚ × ℚ × ℚ
  aname : String
  resname : String
  chid : String
  segname : String
deriving DecidableEq, Repr

/-- A ProDy `AtomGroup`: the ordered list of its atoms. -/
abbrev AtomGroup := List Atom

/-- One entry of the list returned by ProDy's `matchChains`:
`match[0]` (atoms from the first argument), `match[1]` (atoms from the
second argument), sequence identity `match[2]` and overlap `match[3]`. -/
structure ChainMatch where
  fst : List Atom
  snd : List Atom
  seqid : ℚ
  overlap : ℚ
deriving DecidableEq, Repr

/-- `setChids(g, c)`: overwrite every atom's chain identifier (ProDy
`AtomGroup.setChids`). -/
def setChids (g : AtomGroup) (c : String) : AtomGroup :=
  g.map fun a => { a with chid := c }

/-- `setSegnames(g, s)`: overwrite every atom's segment name (ProDy
`AtomGroup.setSegnames`). -/
def setSegnames (g : AtomGroup) (s : String) : AtomGroup :=
  g.map fun a => { a with segname := s }

/-- The chain-normalization step of `make_rmsds_matrix` (lines 77-82):
`copy()` then `setChids("X")` then `setSegnames("X")`.  The Python code
mutates the copy in place; here the copy-and-relabel is one pure function
returning the derived structure, and the original value is untouched by
construction. -/
def combineChains (g : AtomGroup) : AtomGroup :=
  setSegnames (setChids g "X") "X"

/-- `_combine_matched_chains(matches)` from `pairwise_rmsd.py`:
`bound = matches[0][0]; unbound = matches[0][1]`, then `+=` of the later
matches' components in order.  `matches[0]` raises `IndexError` on an
empty list, modelled by `none`; ProDy `+` on atom pointers concatenates,
modelled by `List.append`. -/
def combine_matched_chains (ms : List ChainMatch) : Option (List Atom × List Atom) :=
  match ms with
  | [] => none
  | m0 :: rest =>
      some (rest.foldl (fun bu mi => (bu.1 ++ mi.fst, bu.2 ++ mi.snd)) (m0.fst, m0.snd))

/-- A matrix cell: a numeric value or the NaN sentinel (`np.NaN`).
Generic in the numeric carrier `α` (floats in the source). -/
inductive Val (α : Type) where
  | num (x : α)
  | nan
deriving DecidableEq, Repr

/-- The `pandas.DataFrame` built by `make_rmsds_matrix`: one index list
used for both axes and a cell-valued entry function. -/
structure DF (α : Type) where
  index : List String
  entry : String → String → α

/-- `pd.DataFrame(data=v, index=names, columns=names)`: constant fill. -/
def DF.const (names : List String) (v : α) : DF α :=
  ⟨names, fun _ _ => v⟩

/-- `df.loc[i, j] = v`: overwrite one cell. -/
def DF.set (df : DF α) (i j : String) (v : α) : DF α :=
  ⟨df.index, fun a b => if a = i ∧ b = j then v else df.entry a b⟩

/-- `itertools.combinations(l, 2)` in order: every pair of elements of
`l` whose first component strictly precedes its second. -/
def pairsOf : List β → List (β × β)
  | [] => []
  | x :: xs => xs.map (fun y => (x, y)) ++ pairsOf xs

/-- Pointwise application of a coordinate transformation to an atom list
(ProDy `Transformation.apply`: moves coordinates, keeps all labels). -/
def applyT (t : ℚ × ℚ × ℚ → ℚ × ℚ × ℚ) (atoms : List Atom) : List Atom :=
  atoms.map fun a => { a with coord := t a.coord }

/-- The value `make_rmsds_matrix` computes for one pair of structures
(the body of the loop, lines 75-101, minus the cell write):
normalize both structures, call `matchChains` (the external matcher
oracle, `subset="calpha"`); on `None` the value is NaN; otherwise
combine the matches, compute the transformation superposing the unbound
atoms onto the bound ones (`calcT`, the external `calcTransformation`
oracle), apply it, and take the RMSD.  `none` models the `IndexError`
raised by `_combine_matched_chains` on an empty (non-`None`) match
list. -/
def cellValue [Zero α] (matcher : AtomGroup → AtomGroup → Option (List ChainMatch))
    (calcT : List Atom → List Atom → (ℚ × ℚ × ℚ → ℚ × ℚ × ℚ))
    (calcRMSD : List Atom → List Atom → α)
    (structure_i structure_j : AtomGroup) : Option (Val α) :=
  match matcher (combineChains structure_i) (combineChains structure_j) with
  | some ms =>
      match combine_matched_chains ms with
      | none => none
      | some bu =>
          some (Val.num (calcRMSD bu.1 (applyT (calcT bu.2 bu.1) bu.2)))
  | none => some Val.nan

/-- One iteration of the pairwise loop of `make_rmsds_matrix`: compute
the pair's cell value and write it into cell `(name_i, name_j)` of the
accumulated DataFrame. -/
def rmsdStep [Zero α] (matcher : AtomGroup → AtomGroup → Option (List ChainMatch))
    (calcT : List Atom → List Atom → (ℚ × ℚ × ℚ → ℚ × ℚ × ℚ))
    (calcRMSD : List Atom → List Atom → α)
    (pairwise_rmsds : DF (Val α))
    (pr : (String × AtomGroup) × (String × AtomGroup)) : Option (DF (Val α)) :=
  (cellValue matcher calcT calcRMSD pr.1.2 pr.2.2).map
    (fun v => pairwise_rmsds.set pr.1.1 pr.2.1 v)

/-- `make_rmsds_matrix(parsed_structures_prody)` from `pairwise_rmsd.py`:
start from a square DataFrame filled with `0.0` and indexed by the
structure names on both axes, then for every combination pair
`(name_i, name_j)` write the pair's RMSD (or NaN) into cell
`(name_i, name_j)`.  The input dict is modelled by an association list
in key-iteration order; `none` models an exception aborting the loop.
The `show` branches only print/visualize and are elided. -/
def make_rmsds_matrix [Zero α] (matcher : AtomGroup → AtomGroup → Option (List ChainMatch))
    (calcT : List Atom → List Atom → (ℚ × ℚ × ℚ → ℚ × ℚ × ℚ))
    (calcRMSD : List Atom → List Atom → α)
    (parsed_structures_prody : List (String × AtomGroup)) : Option (DF (Val α)) :=
  let structure_names := parsed_structures_prody.map Prod.fst
  (pairsOf parsed_structures_prody).foldlM (rmsdStep matcher calcT calcRMSD)
    (DF.const structure_names (Val.num 0))

/-- Squared Euclidean distance between two coordinates. -/
def sqDist (p q : ℚ × ℚ × ℚ) : ℚ :=
  (p.1 - q.1) ^ 2 + (p.2.1 - q.2.1) ^ 2 + (p.2.2 - q.2.2) ^ 2

/-- Mean squared deviation between two parallel atom lists (paired
positionally, as ProDy `calcRMSD` pairs coordinate rows). -/
def msd (xs ys : List Atom) : ℚ :=
  (((xs.zip ys).map fun p => sqDist p.1.coord p.2.coord).sum) / (xs.length : ℚ)

/-- ProDy `calcRMSD`: the root-mean-square deviation
`sqrt(mean of squared coordinate distances)`. -/
noncomputable def calcRMSD_prody (xs ys : List Atom) : ℝ :=
  Real.sqrt ((msd xs ys : ℚ) : ℝ)

/-- A per-residue representation tensor (abstract exact model of a torch
tensor: a matrix of rationals). -/
abbrev Tensor := List (List ℚ)

/-- A loaded ESM-2 model: its layer count (`len(esm2.layers)`) and its
inference function, mapping an amino-acid sequence and a layer index to
the representation tensor `results["representations"][layer]`.
Inference runs under `torch.no_grad()` and is deterministic; device
placement does not change the values, so `run` is a pure function of the
sequence and the layer. -/
structure EsmModel where
  numLayers : ℕ
  run : String → ℕ → Tensor

/-- `PRETRAINED_ESM_MODELS = [x for x in dir(esm.pretrained) if
x.startswith("esm2")]`.  The external `esm.pretrained` namespace is
modelled as an association list from attribute name to loaded model
(the loader callables composed with their call); Python's
`str.startswith` is the character-prefix test. -/
def PRETRAINED_ESM_MODELS (pretrained_ns : List (String × EsmModel)) : List String :=
  (pretrained_ns.map Prod.fst).filter fun x => "esm2".data.isPrefixOf x.data

/-- The distinct chain identifiers of a structure, in order of first
appearance (ProDy `HierView` chain iteration order). -/
def chidsOf (g : AtomGroup) : List String :=
  g.foldl (fun acc a => if a.chid ∈ acc then acc else acc ++ [a.chid]) []

/-- `structure.getHierView()` iterated: each chain identifier together
with the atoms carrying it, in structure order. -/
def chainsOf (g : AtomGroup) : List (String × List Atom) :=
  (chidsOf g).map fun c => (c, g.filter fun a => a.chid = c)

/-- `chain.select("name CA")`: ProDy returns `None` when no atom
matches, otherwise the selection of the matching atoms in order. -/
def selectCA (atoms : List Atom) : Option (List Atom) :=
  let sel := atoms.filter fun a => a.aname = "CA"
  if sel.isEmpty then none else some sel

/-- Three-letter to one-letter residue-code table used by ProDy's
`getSequence` ('X' for non-standard residues). -/
def threeToOne (resname : String) : Char :=
  if resname = "ALA" then 'A'
  else if resname = "ARG" then 'R'
  else if resname = "ASN" then 'N'
  else if resname = "ASP" then 'D'
  else if resname = "CYS" then 'C'
  else if resname = "GLN" then 'Q'
  else if resname = "GLU" then 'E'
  else if resname = "GLY" then 'G'
  else if resname = "HIS" then 'H'
  else if resname = "ILE" then 'I'
  else if resname = "LEU" then 'L'
  else if resname = "LYS" then 'K'
  else if resname = "MET" then 'M'
  else if resname = "PHE" then 'F'
  else if resname = "PRO" then 'P'
  else if resname = "SER" then 'S'
  else if resname = "THR" then 'T'
  else if resname = "TRP" then 'W'
  else if resname = "TYR" then 'Y'
  else if resname = "VAL" then 'V'
  else 'X'

/-- `selection.getSequence()`: the one-letter code string of the
selected atoms' residues, in selection order. -/
def getSequence (atoms : List Atom) : String :=
  String.mk (atoms.map fun a => threeToOne a.resname)

/-- The inner chain loop of `get_sequences_from_parsed_prody`: for each
chain, `chain.select("name CA")` then `.getSequence()`.  The selection
is `None` when the chain has no Cα atom, and `None.getSequence()`
raises `AttributeError`, modelled by `Except.error`; the exception
aborts the remaining iterations. -/
def seqOfChains : List (String × List Atom) → Except String (List (String × String))
  | [] => Except.ok []
  | ch :: rest =>
      match selectCA ch.2 with
      | none => Except.error "AttributeError"
      | some chain_ca =>
          match seqOfChains rest with
          | Except.error e => Except.error e
          | Except.ok tl => Except.ok ((ch.1, getSequence chain_ca) :: tl)

/-- `get_sequences_from_parsed_prody` from `sequence_embeddings.py`:
for every structure, for every chain of its hierarchical view, select
the Cα atoms and derive the one-letter sequence; collect per structure
name a mapping chain id → sequence.  An `AttributeError` raised for a
Cα-free chain propagates and aborts the whole extraction. -/
def get_sequences_from_parsed_prody :
    List (String × AtomGroup) → Except String (List (String × List (String × String)))
  | [] => Except.ok []
  | ns :: rest =>
      match seqOfChains (chainsOf ns.2) with
      | Except.error e => Except.error e
      | Except.ok chs =>
          match get_sequences_from_parsed_prody rest with
          | Except.error e => Except.error e
          | Except.ok tl => Except.ok ((ns.1, chs) :: tl)

/-- The exceptions `embeddings_from_parsed_prody` can propagate: the
re-raised `AttributeError` from `getattr(esm.pretrained, name)` (after
printing the valid-model list, recorded in the error value), and the
`AttributeError` from sequence extraction. -/
inductive EmbErr where
  | invalidModel (printed_valid_set : List String)
  | attributeError (msg : String)
deriving DecidableEq, Repr

/-- `embeddings_from_parsed_prody` from `sequence_embeddings.py`:
look the model name up in the `esm.pretrained` namespace (`getattr`
raises `AttributeError` when absent, caught, the valid set printed, and
re-raised); default `repr_layers` to `[len(esm2.layers)]`; extract all
chain sequences; for each structure and chain run inference and keep
one tensor per requested layer, in the requested order. -/
def embeddings_from_parsed_prody (pretrained_ns : List (String × EsmModel))
    (parsed_structures_prody : List (String × AtomGroup))
    (pretrained_esm_model : String)
    (repr_layers : Option (List ℕ)) :
    Except EmbErr (List (String × List (String × List Tensor))) :=
  match pretrained_ns.lookup pretrained_esm_model with
  | none => Except.error (EmbErr.invalidModel (PRETRAINED_ESM_MODELS pretrained_ns))
  | some esm2 =>
      let layers := repr_layers.getD [esm2.numLayers]
      match get_sequences_from_parsed_prody parsed_structures_prody with
      | Except.error e => Except.error (EmbErr.attributeError e)
      | Except.ok sequences =>
          Except.ok (sequences.map fun nc =>
            (nc.1, nc.2.map fun cs =>
              (cs.1, layers.map fun layer => esm2.run cs.2 layer)))

/-- `main` from `sequence_embeddings.py`, after the external
directory-glob and `parsePDB` steps (passed in as the parsed dict):
run `embeddings_from_parsed_prody` with the default `repr_layers`, then
write one pickle file per structure name.  The returned second
component is the list of output file names written; an exception
propagates before any file is opened. -/
def main' (pretrained_ns : List (String × EsmModel))
    (parsed_structures_prody : List (String × AtomGroup))
    (pretrained_esm_model : String) :
    Except EmbErr ((List (String × List (String × List Tensor))) × List String) :=
  match embeddings_from_parsed_prody pretrained_ns parsed_structures_prody
      pretrained_esm_model none with
  | Except.error e => Except.error e
  | Except.ok esm2_embeddings =>
      Except.ok (esm2_embeddings, esm2_embeddings.map fun nc => nc.1 ++ ".pkl")

/-! ### Concrete fixtures used to instantiate the theorems -/

/-- A Cα alanine atom at the origin, chain "A". -/
def caAla0 : Atom := ⟨(0, 0, 0), "CA", "ALA", "A", "A"⟩

/-- A Cα alanine atom at (1,0,0), chain "B". -/
def caAla1 : Atom := ⟨(1, 0, 0), "CA", "ALA", "B", "B"⟩

/-- `caAla0` as it appears after chain normalization. -/
def caAlaX0 : Atom := ⟨(0, 0, 0), "CA", "ALA", "X", "X"⟩

/-- `caAla1` as it appears after chain normalization. -/
def caAlaX1 : Atom := ⟨(1, 0, 0), "CA", "ALA", "X", "X"⟩

/-- A one-chain-pair match between the two normalized fixture atoms. -/
def matchX : ChainMatch := ⟨[caAlaX0], [caAlaX1], 1, 1⟩

/-- A matcher oracle that always finds the fixture match. -/
def matcherConst : AtomGroup → AtomGroup → Option (List ChainMatch) :=
  fun _ _ => some [matchX]

/-- A matcher oracle that never finds a correspondence. -/
def matcherNone : AtomGroup → AtomGroup → Option (List ChainMatch) :=
  fun _ _ => none

/-- A transformation oracle returning the identity move. -/
def calcT_id : List Atom → List Atom → (ℚ × ℚ × ℚ → ℚ × ℚ × ℚ) :=
  fun _ _ => id

/-- A two-structure input dict. -/
def structsAB : List (String × AtomGroup) := [("A", [caAla0]), ("B", [caAla1])]

/-- The single combination pair of `structsAB`. -/
def prAB : (String × AtomGroup) × (String × AtomGroup) :=
  (("A", [caAla0]), ("B", [caAla1]))

/-- A tiny stand-in ESM-2 model: two layers, inference returning a
1×1 tensor derived from the sequence length and the layer index. -/
def esm2Tiny : EsmModel := ⟨2, fun s l => [[(s.length : ℚ) + (l : ℚ)]]⟩

/-- A pretrained namespace holding only an `esm2*` model. -/
def esmNsTinyOnly : List (String × EsmModel) := [("esm2_tiny", esm2Tiny)]

/-- A pretrained namespace holding a legacy (non-`esm2*`) model next to
an `esm2*` one, as the real `esm.pretrained` namespace does. -/
def esmNsMixed : List (String × EsmModel) :=
  [("esm1_legacy", esm2Tiny), ("esm2_tiny", esm2Tiny)]

/-! ## Basic lemmas about the DataFrame model and pair enumeration -/

theorem DF.index_set (df : DF α) (i j : String) (v : α) :
    (df.set i j v).index = df.index := rfl

theorem DF.entry_set_same (df : DF α) (i j : String) (v : α) :
    (df.set i j v).entry i j = v := by
  simp [DF.set]

theorem DF.entry_set_other (df : DF α) (i j a b : String) (v : α)
    (h : ¬(a = i ∧ b = j)) :
    (df.set i j v).entry a b = df.entry a b := by
  simp only [DF.set, if_neg h]

theorem mem_pairsOf_iff_sublist {l : List β} {a b : β} :
    (a, b) ∈ pairsOf l ↔ [a, b].Sublist l := by
  induction l with
  | nil => simp [pairsOf]
  | cons x xs ih =>
      simp only [pairsOf, List.mem_append, List.mem_map, ih]
      constructor
      · rintro (⟨y, hy, he⟩ | h)
        · obtain ⟨rfl, rfl⟩ := Prod.mk.injEq .. ▸ he
          exact List.Sublist.cons₂ _ (List.singleton_sublist.mpr hy)
        · exact h.cons _
      · intro h
        rcases List.cons_sublist_cons'.mp h with h' | ⟨rfl, h'⟩
        · exact Or.inr h'
        · exact Or.inl ⟨b, List.singleton_sublist.mp h', rfl⟩

theorem mem_of_mem_pairsOf {l : List β} {p : β × β} (h : p ∈ pairsOf l) :
    p.1 ∈ l ∧ p.2 ∈ l := by
  have hs : [p.1, p.2].Sublist l := mem_pairsOf_iff_sublist.mp (by simpa using h)
  exact ⟨hs.subset (by simp), hs.subset (by simp)⟩

theorem nodup_pairsOf {l : List β} (h : l.Nodup) : (pairsOf l).Nodup := by
  induction l with
  | nil => simp [pairsOf]
  | cons x xs ih =>
      rw [pairsOf]
      refine List.Nodup.append ?_ (ih (List.nodup_cons.mp h).2) ?_
      · exact ((List.nodup_cons.mp h).2).map
          (fun a b hab => by simpa using congrArg Prod.snd hab)
      · intro p hp1 hp2
        obtain ⟨y, _, rfl⟩ := List.mem_map.mp hp1
        exact (List.nodup_cons.mp h).1 (mem_of_mem_pairsOf hp2).1

theorem two_mul_length_pairsOf (l : List β) :
    2 * (pairsOf l).length = l.length * (l.length - 1) := by
  induction l with
  | nil => rfl
  | cons x xs ih =>
      have hlen : (pairsOf (x :: xs)).length = xs.length + (pairsOf xs).length := by
        simp [pairsOf]
      rw [hlen, Nat.mul_add, ih, List.length_cons, Nat.add_sub_cancel]
      cases xs.length with
      | zero => rfl
      | succ m =>
          rw [Nat.succ_sub_one]
          ring

theorem pairsOf_map (f : β → γ) (l : List β) :
    (pairsOf l).map (fun p => (f p.1, f p.2)) = pairsOf (l.map f) := by
  induction l with
  | nil => rfl
  | cons x xs ih =>
      simp only [pairsOf, List.map_append, List.map_map, ih, List.map_cons]
      rfl

/-! ## Lemmas about the pairwise fold -/

section PairwiseFold

variable {α : Type} [Zero α]
variable (matcher : AtomGroup → AtomGroup → Option (List ChainMatch))
variable (calcT : List Atom → List Atom → (ℚ × ℚ × ℚ → ℚ × ℚ × ℚ))
variable (calcRMSD : List Atom → List Atom → α)

theorem rmsdStep_eq_some {df df' : DF (Val α)}
    {pr : (String × AtomGroup) × (String × AtomGroup)}
    (h : rmsdStep matcher calcT calcRMSD df pr = some df') :
    ∃ v, cellValue matcher calcT calcRMSD pr.1.2 pr.2.2 = some v ∧
      df' = df.set pr.1.1 pr.2.1 v := by
  unfold rmsdStep at h
  cases hc : cellValue matcher calcT calcRMSD pr.1.2 pr.2.2 with
  | none => rw [hc] at h; exact absurd h (by simp)
  | some v =>
      rw [hc] at h
      exact ⟨v, rfl, (Option.some_injective _ h).symm⟩

theorem foldlM_rmsdStep_index :
    ∀ (ps : List ((String × AtomGroup) × (String × AtomGroup))) (df df' : DF (Val α)),
      List.foldlM (rmsdStep matcher calcT calcRMSD) df ps = some df' →
      df'.index = df.index := by
  intro ps
  induction ps with
  | nil =>
      intro df df' h
      simp only [List.foldlM_nil] at h
      rw [← Option.some_injective _ h]
  | cons q qs ih =>
      intro df df' h
      simp only [List.foldlM_cons, Option.bind_eq_bind, Option.bind_eq_some] at h
      obtain ⟨df₁, h₁, h₂⟩ := h
      obtain ⟨v, _, rfl⟩ := rmsdStep_eq_some matcher calcT calcRMSD h₁
      rw [ih _ _ h₂, DF.index_set]

theorem foldlM_rmsdStep_isSome :
    ∀ (ps : List ((String × AtomGroup) × (String × AtomGroup))) (df df' : DF (Val α)),
      List.foldlM (rmsdStep matcher calcT calcRMSD) df ps = some df' →
      ∀ pr ∈ ps, (cellValue matcher calcT calcRMSD pr.1.2 pr.2.2).isSome := by
  intro ps
  induction ps with
  | nil => intro df df' _ pr hpr; exact absurd hpr (by simp)
  | cons q qs ih =>
      intro df df' h pr hpr
      simp only [List.foldlM_cons, Option.bind_eq_bind, Option.bind_eq_some] at h
      obtain ⟨df₁, h₁, h₂⟩ := h
      rcases List.mem_cons.mp hpr with rfl | hpr'
      · obtain ⟨v, hv, _⟩ := rmsdStep_eq_some matcher calcT calcRMSD h₁
        rw [hv]; rfl
      · exact ih df₁ df' h₂ pr hpr'

theorem foldlM_rmsdStep_exists :
    ∀ (ps : List ((String × AtomGroup) × (String × AtomGroup))),
      (∀ pr ∈ ps, (cellValue matcher calcT calcRMSD pr.1.2 pr.2.2).isSome) →
      ∀ df : DF (Val α), ∃ df',
        List.foldlM (rmsdStep matcher calcT calcRMSD) df ps = some df' := by
  intro ps
  induction ps with
  | nil => intro _ df; exact ⟨df, rfl⟩
  | cons q qs ih =>
      intro h df
      obtain ⟨v, hv⟩ := Option.isSome_iff_exists.mp (h q (by simp))
      obtain ⟨df', hdf'⟩ := ih (fun pr hpr => h pr (List.mem_cons_of_mem _ hpr))
        (df.set q.1.1 q.2.1 v)
      refine ⟨df', ?_⟩
      simp only [List.foldlM_cons, Option.bind_eq_bind, Option.bind_eq_some]
      exact ⟨df.set q.1.1 q.2.1 v, by simp [rmsdStep, hv], hdf'⟩

theorem foldlM_rmsdStep_frame :
    ∀ (ps : List ((String × AtomGroup) × (String × AtomGroup))) (df df' : DF (Val α)),
      List.foldlM (rmsdStep matcher calcT calcRMSD) df ps = some df' →
      ∀ a b : String, (∀ pr ∈ ps, ¬(pr.1.1 = a ∧ pr.2.1 = b)) →
        df'.entry a b = df.entry a b := by
  intro ps
  induction ps with
  | nil =>
      intro df df' h a b _
      simp only [List.foldlM_nil] at h
      rw [← Option.some_injective _ h]
  | cons q qs ih =>
      intro df df' h a b hnot
      simp only [List.foldlM_cons, Option.bind_eq_bind, Option.bind_eq_some] at h
      obtain ⟨df₁, h₁, h₂⟩ := h
      obtain ⟨v, _, rfl⟩ := rmsdStep_eq_some matcher calcT calcRMSD h₁
      rw [ih _ _ h₂ a b (fun pr hpr => hnot pr (List.mem_cons_of_mem _ hpr))]
      exact DF.entry_set_other df q.1.1 q.2.1 a b v
        (fun hab => hnot q (by simp) ⟨hab.1.symm, hab.2.symm⟩)

theorem foldlM_rmsdStep_written :
    ∀ (ps : List ((String × AtomGroup) × (String × AtomGroup))) (df df' : DF (Val α)),
      List.foldlM (rmsdStep matcher calcT calcRMSD) df ps = some df' →
      (ps.map fun pr => (pr.1.1, pr.2.1)).Nodup →
      ∀ pr ∈ ps, ∃ v, cellValue matcher calcT calcRMSD pr.1.2 pr.2.2 = some v ∧
        df'.entry pr.1.1 pr.2.1 = v := by
  intro ps
  induction ps with
  | nil => intro df df' _ _ pr hpr; exact absurd hpr (by simp)
  | cons q qs ih =>
      intro df df' h hnd pr hpr
      simp only [List.foldlM_cons, Option.bind_eq_bind, Option.bind_eq_some] at h
      obtain ⟨df₁, h₁, h₂⟩ := h
      rw [List.map_cons] at hnd
      have hnd' := List.nodup_cons.mp hnd
      rcases List.mem_cons.mp hpr with rfl | hpr'
      · obtain ⟨v, hv, rfl⟩ := rmsdStep_eq_some matcher calcT calcRMSD h₁
        refine ⟨v, hv, ?_⟩
        rw [foldlM_rmsdStep_frame matcher calcT calcRMSD qs _ _ h₂ pr.1.1 pr.2.1
          (fun pr' hpr' hab =>
            hnd'.1 (List.mem_map.mpr ⟨pr', hpr', by rw [hab.1, hab.2]⟩))]
        exact DF.entry_set_same df pr.1.1 pr.2.1 v
      · exact ih df₁ df' h₂ hnd'.2 pr hpr'

end PairwiseFold

theorem cellValue_isSome_iff [Zero α]
    (matcher : AtomGroup → AtomGroup → Option (List ChainMatch))
    (calcT : List Atom → List Atom → (ℚ × ℚ × ℚ → ℚ × ℚ × ℚ))
    (calcRMSD : List Atom → List Atom → α) (si sj : AtomGroup) :
    (cellValue matcher calcT calcRMSD si sj).isSome ↔
      matcher (combineChains si) (combineChains sj) ≠ some [] := by
  unfold cellValue
  cases h : matcher (combineChains si) (combineChains sj) with
  | none => simp
  | some ms =>
      cases ms with
      | nil => simp [combine_matched_chains]
      | cons m rest => simp [combine_matched_chains]

theorem make_rmsds_matrix_eq_foldlM [Zero α]
    (matcher : AtomGroup → AtomGroup → Option (List ChainMatch))
    (calcT : List Atom → List Atom → (ℚ × ℚ × ℚ → ℚ × ℚ × ℚ))
    (calcRMSD : List Atom → List Atom → α)
    (structs : List (String × AtomGroup)) :
    make_rmsds_matrix matcher calcT calcRMSD structs =
      (pairsOf structs).foldlM (rmsdStep matcher calcT calcRMSD)
        (DF.const (structs.map Prod.fst) (Val.num 0)) := rfl

/-- C1: for every input dict of structures (association list with
distinct keys) on which the pairwise loop completes, `make_rmsds_matrix`
returns a table indexed by the structure names on both axes; the
combination pairs number `n(n-1)/2` and are exactly the pairs of names
`(a, b)` with `a` strictly preceding `b` in input order; every such
strict-upper-triangle cell holds the value written for that pair, and
every other cell — diagonal and lower triangle included — still holds
the initial fill value `0.0`. -/
theorem make_rmsds_matrix_upper_triangle [Zero α]
    (matcher : AtomGroup → AtomGroup → Option (List ChainMatch))
    (calcT : List Atom → List Atom → (ℚ × ℚ × ℚ → ℚ × ℚ × ℚ))
    (calcRMSD : List Atom → List Atom → α)
    (structs : List (String × AtomGroup))
    (hnd : (structs.map Prod.fst).Nodup)
    (hok : ∀ pr ∈ pairsOf structs,
      (cellValue matcher calcT calcRMSD pr.1.2 pr.2.2).isSome) :
    ∃ df, make_rmsds_matrix matcher calcT calcRMSD structs = some df ∧
      df.index = structs.map Prod.fst ∧
      2 * (pairsOf structs).length = structs.length * (structs.length - 1) ∧
      (∀ a b : String, (a, b) ∈ pairsOf (structs.map Prod.fst) ↔
        [a, b].Sublist (structs.map Prod.fst)) ∧
      (∀ a b : String, ¬ [a, b].Sublist (structs.map Prod.fst) →
        df.entry a b = Val.num 0) ∧
      (∀ pr ∈ pairsOf structs,
        ∃ v, cellValue matcher calcT calcRMSD pr.1.2 pr.2.2 = some v ∧
          df.entry pr.1.1 pr.2.1 = v) := by
  obtain ⟨df, hdf⟩ := foldlM_rmsdStep_exists matcher calcT calcRMSD (pairsOf structs)
    hok (DF.const (structs.map Prod.fst) (Val.num 0))
  have hproj : (pairsOf structs).map (fun pr => (pr.1.1, pr.2.1)) =
      pairsOf (structs.map Prod.fst) := pairsOf_map Prod.fst structs
  refine ⟨df, by rw [make_rmsds_matrix_eq_foldlM]; exact hdf, ?_,
    two_mul_length_pairsOf structs, fun a b => mem_pairsOf_iff_sublist, ?_, ?_⟩
  · rw [foldlM_rmsdStep_index matcher calcT calcRMSD (pairsOf structs) _ df hdf]
    rfl
  · intro a b hns
    have hframe : ∀ pr ∈ pairsOf structs, ¬(pr.1.1 = a ∧ pr.2.1 = b) := by
      intro pr hpr hab
      refine hns (mem_pairsOf_iff_sublist.mp ?_)
      rw [← hproj]
      exact List.mem_map.mpr ⟨pr, hpr, by rw [hab.1, hab.2]⟩
    rw [foldlM_rmsdStep_frame matcher calcT calcRMSD (pairsOf structs) _ df hdf a b hframe]
    rfl
  · exact foldlM_rmsdStep_written matcher calcT calcRMSD (pairsOf structs) _ df hdf
      (by rw [hproj]; exact nodup_pairsOf hnd)

theorem make_rmsds_matrix_upper_triangle_witness :
    ∃ df, make_rmsds_matrix (α := ℚ) (fun _ _ => none) (fun _ _ => id) (fun _ _ => 0)
        [("A", []), ("B", [])] = some df ∧
      df.index = [("A", ([] : AtomGroup)), ("B", [])].map Prod.fst ∧
      2 * (pairsOf [("A", ([] : AtomGroup)), ("B", [])]).length = 2 * (2 - 1) ∧
      (∀ a b : String, (a, b) ∈ pairsOf ["A", "B"] ↔ [a, b].Sublist ["A", "B"]) ∧
      (∀ a b : String, ¬ [a, b].Sublist ["A", "B"] → df.entry a b = Val.num 0) ∧
      (∀ pr ∈ pairsOf [("A", ([] : AtomGroup)), ("B", [])],
        ∃ v, cellValue (fun _ _ => none) (fun _ _ => id) (fun _ _ => (0 : ℚ))
          pr.1.2 pr.2.2 = some v ∧ df.entry pr.1.1 pr.2.1 = v) :=
  make_rmsds_matrix_upper_triangle (fun _ _ => none) (fun _ _ => id) (fun _ _ => 0)
    [("A", []), ("B", [])] (by decide) (by decide)

/-- C2: for a pair of structures on which the chain matcher returns
`None`, the pair's cell value is the NaN sentinel — not an error, the
loop continues — and, when the whole loop completes, that pair's cell of
the returned matrix holds NaN while every combination pair still
receives exactly one written cell value. -/
theorem make_rmsds_matrix_nan_cell [Zero α]
    (matcher : AtomGroup → AtomGroup → Option (List ChainMatch))
    (calcT : List Atom → List Atom → (ℚ × ℚ × ℚ → ℚ × ℚ × ℚ))
    (calcRMSD : List Atom → List Atom → α)
    (structs : List (String × AtomGroup))
    (pr : (String × AtomGroup) × (String × AtomGroup))
    (hnd : (structs.map Prod.fst).Nodup)
    (hok : ∀ pr' ∈ pairsOf structs,
      (cellValue matcher calcT calcRMSD pr'.1.2 pr'.2.2).isSome)
    (hpr : pr ∈ pairsOf structs)
    (hnone : matcher (combineChains pr.1.2) (combineChains pr.2.2) = none) :
    cellValue matcher calcT calcRMSD pr.1.2 pr.2.2 = some Val.nan ∧
    ∃ df, make_rmsds_matrix matcher calcT calcRMSD structs = some df ∧
      df.entry pr.1.1 pr.2.1 = Val.nan ∧
      (∀ pr' ∈ pairsOf structs,
        ∃ v, cellValue matcher calcT calcRMSD pr'.1.2 pr'.2.2 = some v ∧
          df.entry pr'.1.1 pr'.2.1 = v) := by
  have hcell : cellValue matcher calcT calcRMSD pr.1.2 pr.2.2 = some Val.nan := by
    unfold cellValue
    rw [hnone]
  obtain ⟨df, hdf, _, _, _, _, hwr⟩ :=
    make_rmsds_matrix_upper_triangle matcher calcT calcRMSD structs hnd hok
  obtain ⟨v, hv, hentry⟩ := hwr pr hpr
  refine ⟨hcell, df, hdf, ?_, hwr⟩
  rw [hentry]
  exact Option.some_injective _ (hv.symm.trans hcell)

theorem make_rmsds_matrix_nan_cell_witness :
    cellValue (fun _ _ => none) (fun _ _ => id) (fun _ _ => (0 : ℚ))
      (("A", ([] : AtomGroup)), ("B", ([] : AtomGroup))).1.2
      (("A", ([] : AtomGroup)), ("B", ([] : AtomGroup))).2.2 = some Val.nan ∧
    ∃ df, make_rmsds_matrix (α := ℚ) (fun _ _ => none) (fun _ _ => id) (fun _ _ => 0)
        [("A", []), ("B", [])] = some df ∧
      df.entry (("A", ([] : AtomGroup)), ("B", ([] : AtomGroup))).1.1
        (("A", ([] : AtomGroup)), ("B", ([] : AtomGroup))).2.1 = Val.nan ∧
      (∀ pr' ∈ pairsOf [("A", ([] : AtomGroup)), ("B", [])],
        ∃ v, cellValue (fun _ _ => none) (fun _ _ => id) (fun _ _ => (0 : ℚ))
          pr'.1.2 pr'.2.2 = some v ∧ df.entry pr'.1.1 pr'.2.1 = v) :=
  make_rmsds_matrix_nan_cell (fun _ _ => none) (fun _ _ => id) (fun _ _ => 0)
    [("A", []), ("B", [])] (("A", []), ("B", []))
    (by decide) (by decide) (by decide) rfl

/-- C10: the loop marks a pair "unalignable" only when `matchChains`
returns `None`; a non-`None` empty match list makes
`_combine_matched_chains` index into an empty list (`IndexError`,
modelled by `none`), aborting the whole run instead of writing NaN;
and when no processed pair yields an empty match list the loop is
total. -/
theorem make_rmsds_matrix_empty_match_aborts [Zero α]
    (matcher : AtomGroup → AtomGroup → Option (List ChainMatch))
    (calcT : List Atom → List Atom → (ℚ × ℚ × ℚ → ℚ × ℚ × ℚ))
    (calcRMSD : List Atom → List Atom → α)
    (structs : List (String × AtomGroup)) :
    combine_matched_chains [] = none ∧
    ((∃ pr ∈ pairsOf structs,
        matcher (combineChains pr.1.2) (combineChains pr.2.2) = some []) →
      make_rmsds_matrix matcher calcT calcRMSD structs = none) ∧
    ((∀ pr ∈ pairsOf structs,
        matcher (combineChains pr.1.2) (combineChains pr.2.2) ≠ some []) →
      ∃ df, make_rmsds_matrix matcher calcT calcRMSD structs = some df) := by
  refine ⟨rfl, ?_, ?_⟩
  · rintro ⟨pr, hpr, hempty⟩
    cases h : make_rmsds_matrix matcher calcT calcRMSD structs with
    | none => rfl
    | some df =>
        have hs := foldlM_rmsdStep_isSome matcher calcT calcRMSD (pairsOf structs)
          (DF.const (structs.map Prod.fst) (Val.num 0)) df
          (by rw [← make_rmsds_matrix_eq_foldlM]; exact h) pr hpr
        rw [cellValue_isSome_iff] at hs
        exact absurd hempty hs
  · intro hne
    obtain ⟨df, hdf⟩ := foldlM_rmsdStep_exists matcher calcT calcRMSD (pairsOf structs)
      (fun pr hpr => (cellValue_isSome_iff matcher calcT calcRMSD pr.1.2 pr.2.2).mpr
        (hne pr hpr))
      (DF.const (structs.map Prod.fst) (Val.num 0))
    exact ⟨df, by rw [make_rmsds_matrix_eq_foldlM]; exact hdf⟩

/-- C4: the chain-normalization step (copy, then overwrite all chain
identifiers and segment names with "X") keeps the atom count, every
atom coordinate, and every non-label attribute (atom name, residue
name); only the chain id and segment name change, both to "X".  The
copy-and-relabel is a pure function of the original, which is never
mutated (the embedding passes the original value on unchanged). -/
theorem combineChains_only_relabels (g : AtomGroup) :
    (combineChains g).length = g.length ∧
    (combineChains g).map Atom.coord = g.map Atom.coord ∧
    (combineChains g).map Atom.aname = g.map Atom.aname ∧
    (combineChains g).map Atom.resname = g.map Atom.resname ∧
    (combineChains g).all (fun a => a.chid == "X" && a.segname == "X") = true := by
  unfold combineChains setChids setSegnames
  refine ⟨by simp, ?_, ?_, ?_, ?_⟩ <;>
    simp [List.map_map, Function.comp_def, List.all_eq_true]

theorem foldl_combine_pair (rest : List ChainMatch) :
    ∀ b u : List Atom,
      rest.foldl (fun bu mi => (bu.1 ++ mi.fst, bu.2 ++ mi.snd)) (b, u) =
        (b ++ (rest.map ChainMatch.fst).flatten, u ++ (rest.map ChainMatch.snd).flatten) := by
  induction rest with
  | nil => intro b u; simp
  | cons m ms ih =>
      intro b u
      simp only [List.foldl_cons, ih, List.map_cons, List.flatten_cons, List.append_assoc]

/-- C5: on a non-empty match list, `_combine_matched_chains` returns the
two parallel concatenations, in match order, of the matched atom
subsets: all first components (the "bound" atoms, i.e. the ones matched
from the first argument, structure `i`) and all second components (the
"unbound" atoms from structure `j`). -/
theorem combine_matched_chains_concat (ms : List ChainMatch) (h : ms ≠ []) :
    combine_matched_chains ms =
      some ((ms.map ChainMatch.fst).flatten, (ms.map ChainMatch.snd).flatten) := by
  cases ms with
  | nil => exact absurd rfl h
  | cons m0 rest =>
      have hred : combine_matched_chains (m0 :: rest) =
          some (rest.foldl (fun bu mi => (bu.1 ++ mi.fst, bu.2 ++ mi.snd))
            (m0.fst, m0.snd)) := rfl
      rw [hred, foldl_combine_pair rest m0.fst m0.snd]
      simp

theorem combine_matched_chains_concat_witness :
    combine_matched_chains
        [⟨[⟨(0, 0, 0), "CA", "ALA", "X", "X"⟩], [⟨(1, 0, 0), "CA", "GLY", "X", "X"⟩], 1, 1⟩,
         ⟨[⟨(2, 0, 0), "CA", "SER", "X", "X"⟩], [⟨(3, 0, 0), "CA", "THR", "X", "X"⟩], 1, 1⟩] =
      some
        (([(⟨[⟨(0, 0, 0), "CA", "ALA", "X", "X"⟩], [⟨(1, 0, 0), "CA", "GLY", "X", "X"⟩], 1, 1⟩ : ChainMatch),
           ⟨[⟨(2, 0, 0), "CA", "SER", "X", "X"⟩], [⟨(3, 0, 0), "CA", "THR", "X", "X"⟩], 1, 1⟩].map ChainMatch.fst).flatten,
         ([(⟨[⟨(0, 0, 0), "CA", "ALA", "X", "X"⟩], [⟨(1, 0, 0), "CA", "GLY", "X", "X"⟩], 1, 1⟩ : ChainMatch),
           ⟨[⟨(2, 0, 0), "CA", "SER", "X", "X"⟩], [⟨(3, 0, 0), "CA", "THR", "X", "X"⟩], 1, 1⟩].map ChainMatch.snd).flatten) :=
  combine_matched_chains_concat _ (by decide)

/-- C6: for a pair with a non-empty match list, the matrix cell written
by `make_rmsds_matrix` holds exactly
`calcRMSD(bound, transformation.apply(unbound))` — the root-mean-square
deviation between the bound coordinates and the unbound coordinates
after the transformation returned by the (external, least-squares
optimal) `calcTransformation(unbound, bound)` oracle has been applied to
the unbound atoms — and this value, being a square root, is a
non-negative real number. -/
theorem make_rmsds_matrix_rmsd_value
    (matcher : AtomGroup → AtomGroup → Option (List ChainMatch))
    (calcT : List Atom → List Atom → (ℚ × ℚ × ℚ → ℚ × ℚ × ℚ))
    (structs : List (String × AtomGroup))
    (pr : (String × AtomGroup) × (String × AtomGroup))
    (ms : List ChainMatch) (bu : List Atom × List Atom)
    (hnd : (structs.map Prod.fst).Nodup)
    (hok : ∀ pr' ∈ pairsOf structs,
      (cellValue matcher calcT calcRMSD_prody pr'.1.2 pr'.2.2).isSome)
    (hpr : pr ∈ pairsOf structs)
    (hms : matcher (combineChains pr.1.2) (combineChains pr.2.2) = some ms)
    (hbu : combine_matched_chains ms = some bu) :
    0 ≤ calcRMSD_prody bu.1 (applyT (calcT bu.2 bu.1) bu.2) ∧
    ∃ df, make_rmsds_matrix matcher calcT calcRMSD_prody structs = some df ∧
      df.entry pr.1.1 pr.2.1 =
        Val.num (calcRMSD_prody bu.1 (applyT (calcT bu.2 bu.1) bu.2)) := by
  have hcell : cellValue matcher calcT calcRMSD_prody pr.1.2 pr.2.2 =
      some (Val.num (calcRMSD_prody bu.1 (applyT (calcT bu.2 bu.1) bu.2))) := by
    simp only [cellValue, hms, hbu]
  obtain ⟨df, hdf, _, _, _, _, hwr⟩ :=
    make_rmsds_matrix_upper_triangle matcher calcT calcRMSD_prody structs hnd hok
  obtain ⟨v, hv, hentry⟩ := hwr pr hpr
  refine ⟨Real.sqrt_nonneg _, df, hdf, ?_⟩
  rw [hentry]
  exact Option.some_injective _ (hv.symm.trans hcell)

theorem make_rmsds_matrix_rmsd_value_witness :
    0 ≤ calcRMSD_prody ([caAlaX0], [caAlaX1]).1
        (applyT (calcT_id ([caAlaX0], [caAlaX1]).2 ([caAlaX0], [caAlaX1]).1)
          ([caAlaX0], [caAlaX1]).2) ∧
    ∃ df, make_rmsds_matrix matcherConst calcT_id calcRMSD_prody structsAB = some df ∧
      df.entry prAB.1.1 prAB.2.1 =
        Val.num (calcRMSD_prody ([caAlaX0], [caAlaX1]).1
          (applyT (calcT_id ([caAlaX0], [caAlaX1]).2 ([caAlaX0], [caAlaX1]).1)
            ([caAlaX0], [caAlaX1]).2)) :=
  make_rmsds_matrix_rmsd_value matcherConst calcT_id structsAB prAB
    [matchX] ([caAlaX0], [caAlaX1])
    (by decide) (by decide) (by decide) rfl rfl

/-! ## Lemmas about sequence extraction -/

theorem selectCA_eq_some {atoms : List Atom} (h : (selectCA atoms).isSome) :
    selectCA atoms = some (atoms.filter fun a => a.aname = "CA") := by
  by_cases hemp : (atoms.filter fun a => a.aname = "CA").isEmpty
  · rw [selectCA] at h
    simp only [hemp] at h
    exact absurd h (by simp)
  · rw [selectCA]
    simp only [hemp]
    rfl

theorem selectCA_eq_none {atoms : List Atom} (h : ∀ a ∈ atoms, a.aname ≠ "CA") :
    selectCA atoms = none := by
  have hemp : (atoms.filter fun a => a.aname = "CA") = [] :=
    List.filter_eq_nil_iff.mpr (fun a ha => by simpa using h a ha)
  rw [selectCA]
  simp [hemp]


theorem seqOfChains_isOk_iff (chs : List (String × List Atom)) :
    (seqOfChains chs).isOk ↔ ∀ ch ∈ chs, (selectCA ch.2).isSome := by
  induction chs with
  | nil => simp [seqOfChains, Except.isOk, Except.toBool]
  | cons c cs ih =>
      cases h : selectCA c.2 with
      | none =>
          simp only [seqOfChains, h, Except.isOk, Except.toBool, List.mem_cons]
          constructor
          · intro hf; exact absurd hf (by decide)
          · intro hall
            have hc := hall c (Or.inl rfl)
            rw [h] at hc
            exact absurd hc (by decide)
      | some sel =>
          cases h2 : seqOfChains cs with
          | error e =>
              simp only [seqOfChains, h, h2, Except.isOk, Except.toBool, List.mem_cons]
              constructor
              · intro hf; exact absurd hf (by decide)
              · intro hall
                have hok := ih.mpr fun ch hch => hall ch (Or.inr hch)
                rw [h2] at hok
                simp [Except.isOk, Except.toBool] at hok
          | ok tl =>
              simp only [seqOfChains, h, h2, Except.isOk, Except.toBool, List.mem_cons]
              constructor
              · intro _ ch hch
                rcases hch with rfl | hch
                · rw [h]; rfl
                · exact (ih.mp (by rw [h2]; rfl)) ch hch
              · intro _; trivial

theorem seqOfChains_eq_ok (chs : List (String × List Atom))
    (h : ∀ ch ∈ chs, (selectCA ch.2).isSome) :
    seqOfChains chs =
      Except.ok (chs.map fun ch => (ch.1, getSequence (ch.2.filter fun a => a.aname = "CA"))) := by
  induction chs with
  | nil => rfl
  | cons c cs ih =>
      have hc := selectCA_eq_some (h c (by simp))
      have hcs := ih fun ch hch => h ch (List.mem_cons_of_mem _ hch)
      simp only [seqOfChains, hc, hcs, List.map_cons]

theorem get_sequences_eq_ok (parsed : List (String × AtomGroup))
    (h : ∀ ns ∈ parsed, ∀ ch ∈ chainsOf ns.2, (selectCA ch.2).isSome) :
    get_sequences_from_parsed_prody parsed =
      Except.ok (parsed.map fun ns =>
        (ns.1, (chainsOf ns.2).map fun ch =>
          (ch.1, getSequence (ch.2.filter fun a => a.aname = "CA")))) := by
  induction parsed with
  | nil => rfl
  | cons ns rest ih =>
      have hns := seqOfChains_eq_ok (chainsOf ns.2) (h ns (by simp))
      have hrest := ih fun ns' hns' => h ns' (List.mem_cons_of_mem _ hns')
      simp only [get_sequences_from_parsed_prody, hns, hrest, List.map_cons]

theorem get_sequences_isOk_iff (parsed : List (String × AtomGroup)) :
    (get_sequences_from_parsed_prody parsed).isOk ↔
      ∀ ns ∈ parsed, ∀ ch ∈ chainsOf ns.2, (selectCA ch.2).isSome := by
  induction parsed with
  | nil => simp [get_sequences_from_parsed_prody, Except.isOk, Except.toBool]
  | cons ns rest ih =>
      cases h : seqOfChains (chainsOf ns.2) with
      | error e =>
          simp only [get_sequences_from_parsed_prody, h, Except.isOk, Except.toBool, List.mem_cons]
          constructor
          · intro hf; exact absurd hf (by decide)
          · intro hall
            have hok := (seqOfChains_isOk_iff (chainsOf ns.2)).mpr
              (fun ch hch => hall ns (Or.inl rfl) ch hch)
            rw [h] at hok
            simp [Except.isOk, Except.toBool] at hok
      | ok chs =>
          cases h2 : get_sequences_from_parsed_prody rest with
          | error e =>
              simp only [get_sequences_from_parsed_prody, h, h2, Except.isOk, Except.toBool, List.mem_cons]
              constructor
              · intro hf; exact absurd hf (by decide)
              · intro hall
                have hok := ih.mpr fun ns' hns' => hall ns' (Or.inr hns')
                rw [h2] at hok
                simp [Except.isOk, Except.toBool] at hok
          | ok tl =>
              simp only [get_sequences_from_parsed_prody, h, h2, Except.isOk, Except.toBool, List.mem_cons]
              constructor
              · intro _ ns' hns' ch hch
                rcases hns' with rfl | hns'
                · exact (seqOfChains_isOk_iff (chainsOf ns'.2)).mp (by rw [h]; rfl) ch hch
                · exact (ih.mp (by rw [h2]; rfl)) ns' hns' ch hch
              · intro _; trivial

theorem mem_zip_map_self {l : List β} {f : β → γ} {q : γ × β}
    (hq : q ∈ (l.map f).zip l) : q.1 = f q.2 ∧ q.2 ∈ l := by
  induction l with
  | nil => exact absurd hq (by simp)
  | cons x xs ih =>
      rw [List.map_cons, List.zip_cons_cons] at hq
      rcases List.mem_cons.mp hq with rfl | hq'
      · exact ⟨rfl, by simp⟩
      · obtain ⟨h1, h2⟩ := ih hq'
        exact ⟨h1, List.mem_cons_of_mem _ h2⟩

/-- C7: when every chain of every input structure has at least one Cα
atom, `get_sequences_from_parsed_prody` succeeds and returns, per
structure, a mapping whose keys are exactly the structure's original
chain labels in order (no chain merging), each chain's value being the
one-letter amino-acid sequence derived from only that chain's Cα atoms
in chain order. -/
theorem get_sequences_per_original_chain (parsed : List (String × AtomGroup))
    (hCA : ∀ ns ∈ parsed, ∀ ch ∈ chainsOf ns.2, (selectCA ch.2).isSome) :
    ∃ seqs, get_sequences_from_parsed_prody parsed = Except.ok seqs ∧
      seqs.map Prod.fst = parsed.map Prod.fst ∧
      ∀ q ∈ seqs.zip parsed,
        q.1.1 = q.2.1 ∧
        q.1.2.map Prod.fst = (chainsOf q.2.2).map Prod.fst ∧
        ∀ r ∈ q.1.2.zip (chainsOf q.2.2),
          r.1.1 = r.2.1 ∧
          r.1.2 = getSequence (r.2.2.filter fun a => a.aname = "CA") := by
  refine ⟨_, get_sequences_eq_ok parsed hCA, by simp, ?_⟩
  intro q hq
  obtain ⟨hq1, _⟩ := mem_zip_map_self hq
  refine ⟨by rw [hq1], by rw [hq1]; simp, ?_⟩
  intro r hr
  rw [hq1] at hr
  obtain ⟨hr1, _⟩ := mem_zip_map_self hr
  exact ⟨by rw [hr1], by rw [hr1]⟩

theorem get_sequences_per_original_chain_witness :
    ∃ seqs, get_sequences_from_parsed_prody structsAB = Except.ok seqs ∧
      seqs.map Prod.fst = structsAB.map Prod.fst ∧
      ∀ q ∈ seqs.zip structsAB,
        q.1.1 = q.2.1 ∧
        q.1.2.map Prod.fst = (chainsOf q.2.2).map Prod.fst ∧
        ∀ r ∈ q.1.2.zip (chainsOf q.2.2),
          r.1.1 = r.2.1 ∧
          r.1.2 = getSequence (r.2.2.filter fun a => a.aname = "CA") :=
  get_sequences_per_original_chain structsAB (by decide)

/-- C9: sequence extraction is total exactly on inputs whose every
chain has at least one Cα atom: the Cα selection of a chain whose atoms
are all non-Cα is `None`, an input containing such a chain makes
`get_sequences_from_parsed_prody` raise (`AttributeError` from
`None.getSequence()`) instead of returning a mapping, and conversely
the extraction succeeds when every chain has a Cα atom. -/
theorem get_sequences_total_iff_calpha (parsed : List (String × AtomGroup)) :
    ((get_sequences_from_parsed_prody parsed).isOk ↔
      ∀ ns ∈ parsed, ∀ ch ∈ chainsOf ns.2, (selectCA ch.2).isSome) ∧
    (∀ atoms : List Atom, (∀ a ∈ atoms, a.aname ≠ "CA") → selectCA atoms = none) ∧
    ((∃ ns ∈ parsed, ∃ ch ∈ chainsOf ns.2, ∀ a ∈ ch.2, a.aname ≠ "CA") →
      ∃ e, get_sequences_from_parsed_prody parsed = Except.error e) := by
  refine ⟨get_sequences_isOk_iff parsed, fun atoms h => selectCA_eq_none h, ?_⟩
  rintro ⟨ns, hns, ch, hch, hnoca⟩
  cases hres : get_sequences_from_parsed_prody parsed with
  | error e => exact ⟨e, rfl⟩
  | ok seqs =>
      have hok := (get_sequences_isOk_iff parsed).mp (by rw [hres]; rfl)
      have := hok ns hns ch hch
      rw [selectCA_eq_none hnoca] at this
      exact absurd this (by decide)

/-- C8: for a model name found in the pretrained namespace and inputs
whose chains all have Cα atoms, `embeddings_from_parsed_prody` returns,
per structure name and per chain label, the list holding exactly one
representation tensor per requested layer, in the requested order
(`repr_layers.map`), and when no layers are requested the requested
list defaults to the single final layer `[len(esm2.layers)]`. -/
theorem embeddings_one_tensor_per_layer (pretrained_ns : List (String × EsmModel))
    (parsed : List (String × AtomGroup)) (pretrained_esm_model : String)
    (repr_layers : Option (List ℕ)) (esm2 : EsmModel)
    (hm : pretrained_ns.lookup pretrained_esm_model = some esm2)
    (hCA : ∀ ns ∈ parsed, ∀ ch ∈ chainsOf ns.2, (selectCA ch.2).isSome) :
    embeddings_from_parsed_prody pretrained_ns parsed pretrained_esm_model repr_layers =
      Except.ok (parsed.map fun ns =>
        (ns.1, (chainsOf ns.2).map fun ch =>
          (ch.1, (repr_layers.getD [esm2.numLayers]).map fun layer =>
            esm2.run (getSequence (ch.2.filter fun a => a.aname = "CA")) layer))) ∧
    (repr_layers = none → repr_layers.getD [esm2.numLayers] = [esm2.numLayers]) := by
  constructor
  · simp only [embeddings_from_parsed_prody, hm, get_sequences_eq_ok parsed hCA,
      List.map_map, Function.comp_def]
  · intro h; rw [h]; rfl

theorem embeddings_one_tensor_per_layer_witness :
    embeddings_from_parsed_prody esmNsTinyOnly structsAB "esm2_tiny" none =
      Except.ok (structsAB.map fun ns =>
        (ns.1, (chainsOf ns.2).map fun ch =>
          (ch.1, ((none : Option (List ℕ)).getD [esm2Tiny.numLayers]).map fun layer =>
            esm2Tiny.run (getSequence (ch.2.filter fun a => a.aname = "CA")) layer))) ∧
    ((none : Option (List ℕ)) = none →
      (none : Option (List ℕ)).getD [esm2Tiny.numLayers] = [esm2Tiny.numLayers]) :=
  embeddings_one_tensor_per_layer esmNsTinyOnly structsAB "esm2_tiny" none esm2Tiny
    rfl (by decide)

/-- C3 as stated is violated by identifiers that live in the
`esm.pretrained` namespace without matching the `esm2*` naming
convention (the real namespace holds `esm1*` loaders too): for the
concrete namespace `esmNsMixed`, the identifier "esm1_legacy" is not in
the enumerated valid set `PRETRAINED_ESM_MODELS esmNsMixed`, yet
`embeddings_from_parsed_prody` succeeds — `getattr` finds the
attribute, so nothing is printed and nothing is raised. -/
theorem embeddings_invalid_model_counterexample :
    "esm1_legacy" ∉ PRETRAINED_ESM_MODELS esmNsMixed ∧
    (embeddings_from_parsed_prody esmNsMixed structsAB "esm1_legacy" none).isOk = true :=
  ⟨by decide, rfl⟩

/-- C3 (amended): the fail-fast applies to identifiers absent from the
`esm.pretrained` namespace: for those, `getattr` raises
`AttributeError`, the enumerated valid set is printed (recorded in the
error value) and the error is re-raised before any sequence extraction
or inference — the outcome does not depend on the input structures —
and `main` invoked with such an identifier propagates the error and
writes no output file.  Identifiers present in the namespace but
outside the enumerated `esm2*` valid set are not rejected (see the
counterexample). -/
theorem embeddings_missing_model_raises (pretrained_ns : List (String × EsmModel))
    (parsed parsed' : List (String × AtomGroup)) (pretrained_esm_model : String)
    (repr_layers : Option (List ℕ))
    (hmiss : pretrained_ns.lookup pretrained_esm_model = none) :
    embeddings_from_parsed_prody pretrained_ns parsed pretrained_esm_model repr_layers =
      Except.error (EmbErr.invalidModel (PRETRAINED_ESM_MODELS pretrained_ns)) ∧
    embeddings_from_parsed_prody pretrained_ns parsed pretrained_esm_model repr_layers =
      embeddings_from_parsed_prody pretrained_ns parsed' pretrained_esm_model repr_layers ∧
    main' pretrained_ns parsed pretrained_esm_model =
      Except.error (EmbErr.invalidModel (PRETRAINED_ESM_MODELS pretrained_ns)) := by
  have h1 : ∀ (p : List (String × AtomGroup)) (rl : Option (List ℕ)),
      embeddings_from_parsed_prody pretrained_ns p pretrained_esm_model rl =
        Except.error (EmbErr.invalidModel (PRETRAINED_ESM_MODELS pretrained_ns)) := by
    intro p rl
    simp only [embeddings_from_parsed_prody, hmiss]
  refine ⟨h1 parsed repr_layers,
    (h1 parsed repr_layers).trans (h1 parsed' repr_layers).symm, ?_⟩
  simp only [main', h1 parsed none]

theorem embeddings_missing_model_raises_witness :
    embeddings_from_parsed_prody esmNsTinyOnly structsAB "esm2_t36_3B_UR50D" none =
      Except.error (EmbErr.invalidModel (PRETRAINED_ESM_MODELS esmNsTinyOnly)) ∧
    embeddings_from_parsed_prody esmNsTinyOnly structsAB "esm2_t36_3B_UR50D" none =
      embeddings_from_parsed_prody esmNsTinyOnly [] "esm2_t36_3B_UR50D" none ∧
    main' esmNsTinyOnly structsAB "esm2_t36_3B_UR50D" =
      Except.error (EmbErr.invalidModel (PRETRAINED_ESM_MODELS esmNsTinyOnly)) :=
  embeddings_missing_model_raises esmNsTinyOnly structsAB [] "esm2_t36_3B_UR50D" none rfl
